import Mathlib

/-!
Permissionary: role-based permission evaluation.

A shallow embedding of `src/index.js` (`checkPermission`, `findRoles`) and
theorems about it.

* A grants object (`StrMap (Array String)`) is the list of its own enumerable
  entries, in key iteration order.
* The glob library the source calls (`micromatch.any`) is not part of the
  repository.  Every definition translated from the source takes it as a
  parameter `any`, a function that may raise.  A small concrete matcher,
  modelled from the specification, instantiates the parameter at concrete inputs.
* The arity dispatch on `arguments.length` and the functions returned by a call
  with fewer arguments are modelled by argument packs and by records holding
  what the returned function has captured.
-/

namespace Permissionary

/-! ## Data model -/

/-- A grants object: its own enumerable entries `(role, patterns)`, in the order
in which `Object.keys` iterates them. -/
abbrev Grants := List (String × List String)

/-- The call `micromatch.any(candidate, patterns)`: it returns a boolean or raises
an error of type `ε`. -/
abbrev Matcher (ε : Type) := String → List String → Except ε Bool

/-- The value of `Object.keys(grants)`. -/
def keys (grants : Grants) : List String :=
  grants.map Prod.fst

/-- The test `hasProp.call(grants, name)`, with `hasProp` bound to
`Object.prototype.hasOwnProperty`: only own keys count, so a name such as
`toString`, which every object inherits, is not a property in this sense. -/
def hasProp (grants : Grants) (name : String) : Bool :=
  (keys grants).contains name

/-- The value of `grants[name]` for an own key `name`.  The source reads
`grants[name]` only for own keys (behind `hasProp` in `checkPermission`, over
`Object.keys` in `findRoles`), so the default is never reached from there. -/
def getProp (grants : Grants) (name : String) : List String :=
  (grants.lookup name).getD []

/-! ## `checkPermission` -/

/-- The `roles.reduce(...)` of `checkPermission`: starting from `[]`, each role
that is an own key of `grants` has its patterns concatenated to the accumulator;
any other role leaves the accumulator as it is. -/
def permissions (grants : Grants) (roles : List String) : List String :=
  roles.foldl
    (fun permissions group =>
      if hasProp grants group then permissions ++ getProp grants group else permissions)
    []

/-- The inner function `hasPermission`, closed over the array `permissions`. -/
def hasPermission {ε : Type} (any : Matcher ε) (permissions : List String)
    (permission : String) : Except ε Bool :=
  any permission permissions

/-- The function value `checkPermission.bind(this, grants)`. -/
structure BoundCheck where
  grants : Grants
deriving DecidableEq, Repr

/-- The function value `hasPermission` returned by a two-argument call; it has
captured the array `permissions` computed by that call. -/
structure Verifier where
  permissions : List String
deriving DecidableEq, Repr

/-- The argument lists `checkPermission` is called with (`arguments.length` is 1, 2 or 3). -/
inductive CheckArgs where
  | one (grants : Grants)
  | two (grants : Grants) (roles : List String)
  | three (grants : Grants) (roles : List String) (permission : String)
deriving DecidableEq, Repr

/-- What a call of `checkPermission` returns, by `arguments.length`. -/
@[reducible] def CheckArgs.Result (ε : Type) : CheckArgs → Type
  | .one _ => BoundCheck
  | .two _ _ => Verifier
  | .three _ _ _ => Except ε Bool

/-- The function `checkPermission(grants, roles, permission)`. -/
def checkPermission {ε : Type} (any : Matcher ε) : (args : CheckArgs) → args.Result ε
  | .one grants => BoundCheck.mk grants
  | .two grants roles => Verifier.mk (permissions grants roles)
  | .three grants roles permission => hasPermission any (permissions grants roles) permission

/-- The arguments a function `checkPermission.bind(this, grants)` is called with. -/
inductive BoundArgs where
  | zero
  | one (roles : List String)
  | two (roles : List String) (permission : String)
deriving DecidableEq, Repr

/-- The argument list a bound function passes on: the bound `grants` first, then
the arguments of the call. -/
def BoundArgs.after (grants : Grants) : BoundArgs → CheckArgs
  | .zero => .one grants
  | .one roles => .two grants roles
  | .two roles permission => .three grants roles permission

/-- Calling `checkPermission.bind(this, grants)`. -/
def BoundCheck.call {ε : Type} (any : Matcher ε) (f : BoundCheck) (rest : BoundArgs) :
    (rest.after f.grants).Result ε :=
  checkPermission any (rest.after f.grants)

/-- Calling the returned `hasPermission` with a permission. -/
def Verifier.call {ε : Type} (any : Matcher ε) (f : Verifier) (permission : String) :
    Except ε Bool :=
  hasPermission any f.permissions permission

/-! ## `findRoles` -/

/-- The method `Array.prototype.filter` with a callback that may raise: the
callback runs on the elements from left to right, and the first error ends the
whole call. -/
def filter {ε α : Type} (callback : α → Except ε Bool) : List α → Except ε (List α)
  | [] => .ok []
  | x :: xs =>
    match callback x with
    | .error e => .error e
    | .ok keep =>
      match filter callback xs with
      | .error e => .error e
      | .ok rest => .ok (if keep then x :: rest else rest)

/-- The function value `findRoles.bind(this, grants)`. -/
structure BoundFind where
  grants : Grants
deriving DecidableEq, Repr

/-- The argument lists `findRoles` is called with (`arguments.length` is 1 or 2). -/
inductive FindArgs where
  | one (grants : Grants)
  | two (grants : Grants) (permission : String)
deriving DecidableEq, Repr

/-- What a call of `findRoles` returns, by `arguments.length`. -/
@[reducible] def FindArgs.Result (ε : Type) : FindArgs → Type
  | .one _ => BoundFind
  | .two _ _ => Except ε (List String)

/-- The function `findRoles(grants, permission)`. -/
def findRoles {ε : Type} (any : Matcher ε) : (args : FindArgs) → args.Result ε
  | .one grants => BoundFind.mk grants
  | .two grants permission =>
    filter (fun role => any permission (getProp grants role)) (keys grants)

/-- Calling `findRoles.bind(this, grants)` with a permission. -/
def BoundFind.call {ε : Type} (any : Matcher ε) (f : BoundFind) (permission : String) :
    Except ε (List String) :=
  findRoles any (.two f.grants permission)

/-! ## The glob matcher -/

/-- A matcher answers "some pattern of the list matches the candidate", for the
per-pattern predicate `isMatch`, and never raises. -/
def AnyOf {ε : Type} (any : Matcher ε) (isMatch : String → String → Bool) : Prop :=
  ∀ candidate patterns, any candidate patterns = .ok (patterns.any (isMatch candidate))

/-- Modelled from the spec: the star of section 6, "`*` matches any sequence of
characters except path separators".  `starRun k cs` holds when `k` accepts what is
left of `cs` after some run of characters without `/`. -/
def starRun (k : List Char → Bool) : List Char → Bool
  | [] => k []
  | c :: cs => k (c :: cs) || (c != '/' && starRun k cs)

/-- Modelled from the spec: the glob patterns of sections 3 and 6 made of literal
characters ("literal characters match literally") and `*`.  The other operators
section 6 lists (`**`, `?`, classes, braces, negation) are missing from this model,
which is used only at patterns without them. -/
def globChars : List Char → List Char → Bool
  | [], cs => cs.isEmpty
  | p :: ps, cs =>
    if p = '*' then starRun (globChars ps) cs
    else
      match cs with
      | [] => false
      | c :: rest => p == c && globChars ps rest

/-- Modelled from the spec: whether one glob pattern matches the candidate. -/
def globMatch (candidate pattern : String) : Bool :=
  globChars pattern.toList candidate.toList

/-- Modelled from the spec: the GlobMatcher capability of section 6,
`matchesAny(candidate, patterns)`, true when at least one pattern matches. -/
def matchesAny {ε : Type} : Matcher ε :=
  fun candidate patterns => .ok (patterns.any (globMatch candidate))

/-- The grants of the test suite (`mockGrants`). -/
def mockGrants : Grants :=
  [("editor", ["content.edit.*", "image.upload"]),
   ("viewer", ["content.view.*", "image.view"]),
   ("admin", ["*"])]

/-- The grants of the example in the documentation of `checkPermission` and
`findRoles`. -/
def docGrants : Grants :=
  [("content-reader", ["content.read", "images.read"]),
   ("content-writer", ["content.write", "images.upload"]),
   ("superadmin", ["*"])]

/-- The grants of the test suite with the patterns of each role in another order. -/
def mockGrantsReordered : Grants :=
  [("editor", ["image.upload", "content.edit.*"]),
   ("viewer", ["image.view", "content.view.*"]),
   ("admin", ["*"])]

/-- Modelled from the spec: a matcher that raises on a malformed pattern (sections 7
and 9, "malformed (e.g., unbalanced brackets)") and otherwise answers as `matchesAny`. -/
def strictAny : Matcher String :=
  fun candidate patterns =>
    if patterns.any (fun pattern => pattern.toList.count '[' != pattern.toList.count ']') then
      .error "malformed pattern"
    else matchesAny candidate patterns

/-- A grants object one of whose roles holds a malformed pattern. -/
def brokenGrants : Grants :=
  [("editor", ["image.upload"]),
   ("broken", ["content.[edit"])]

/-- The grants of the test suite with a pattern appended to `editor` and the new role
`auditor` added after the existing keys. -/
def mockGrantsExtended : Grants :=
  [("editor", ["content.edit.*", "image.upload", "video.upload"]),
   ("viewer", ["content.view.*", "image.view"]),
   ("admin", ["*"]),
   ("auditor", ["logs.*"])]

/-! ## Evaluation on a store

The same two functions with the objects and arrays they touch held in an explicit
store, so that a write to an argument could be told from a fresh allocation. -/

/-- The mutable store: the objects and the arrays allocated so far, by address.  An
object is the list of its own entries in key order, each value the address of an
array. -/
structure Store where
  objects : List (List (String × Nat))
  arrays : List (List String)
deriving DecidableEq, Repr

/-- The object at an address. -/
def Store.object (s : Store) (o : Nat) : List (String × Nat) :=
  s.objects.getD o []

/-- The contents of the array at an address. -/
def Store.array (s : Store) (a : Nat) : List String :=
  s.arrays.getD a []

/-- A fresh array, as made by `[]`, `concat`, `Object.keys` and `filter`: the store
gains one array and every older address keeps its contents. -/
def Store.newArray (s : Store) (contents : List String) : Store × Nat :=
  (Store.mk s.objects (s.arrays ++ [contents]), s.arrays.length)

/-- The grants table an object of the store stands for: its keys in order, each with
the contents of its array. -/
def Store.grants (s : Store) (o : Nat) : Grants :=
  (s.object o).map fun entry => (entry.1, s.array entry.2)

/-- The relation between a store and a later one in which no object and no array that
existed has changed: the later store only holds more of them. -/
def Store.Extends (s later : Store) : Prop :=
  s.objects <+: later.objects ∧ s.arrays <+: later.arrays

/-- The inputs of a call, read back from a later store, are what they were: the grants
table (its keys and every role's pattern list) and the role list. -/
def Store.Unchanged (s later : Store) (grants roles : Nat) : Prop :=
  later.grants grants = s.grants grants ∧ later.array roles = s.array roles

/-- The call `micromatch.any(candidate, patterns)` on a store: it is handed the
address of the pattern array, and returns the store it leaves behind. -/
abbrev StoreMatcher (ε : Type) := Store → String → Nat → Store × Except ε Bool

/-- A matcher that reads the pattern array and leaves the store as it is. -/
def onStore {ε : Type} (any : Matcher ε) : StoreMatcher ε :=
  fun s candidate patterns => (s, any candidate (s.array patterns))

namespace OnStore

/-- The test `hasProp.call(grants, name)` on the object at address `grants`. -/
def hasProp (s : Store) (grants : Nat) (name : String) : Bool :=
  ((s.object grants).map Prod.fst).contains name

/-- The value of `grants[name]` for an own key: the address of the pattern array. -/
def getProp (s : Store) (grants : Nat) (name : String) : Nat :=
  ((s.object grants).lookup name).getD 0

/-- The call `permissions.concat(other)`: a fresh array, both operands untouched. -/
def concat (s : Store) (permissions other : Nat) : Store × Nat :=
  s.newArray (s.array permissions ++ s.array other)

/-- The `roles.reduce(...)` of `checkPermission` on the store: the accumulator starts
as a fresh `[]`; each role that is an own key replaces it by the fresh array `concat`
returns.  The reduction visits the elements `roles` holds when it starts. -/
def permissions (s : Store) (grants roles : Nat) : Store × Nat :=
  (s.array roles).foldl
    (fun (acc : Store × Nat) group =>
      if hasProp acc.1 grants group then concat acc.1 acc.2 (getProp acc.1 grants group)
      else acc)
    (s.newArray [])

/-- The inner function `hasPermission`, closed over the address of `permissions`. -/
def hasPermission {ε : Type} (any : StoreMatcher ε) (permissions : Nat) (s : Store)
    (permission : String) : Store × Except ε Bool :=
  any s permission permissions

/-- The argument lists of `checkPermission`, objects and arrays given by address. -/
inductive CheckArgs where
  | one (grants : Nat)
  | two (grants : Nat) (roles : Nat)
  | three (grants : Nat) (roles : Nat) (permission : String)
deriving DecidableEq, Repr

/-- What a call of `checkPermission` returns, by `arguments.length`: the bound function
(the address of the grants it holds), the function `hasPermission` (the address of the
pattern array it holds), or the outcome of the matcher. -/
@[reducible] def CheckArgs.Result (ε : Type) : CheckArgs → Type
  | .one _ => Nat
  | .two _ _ => Nat
  | .three _ _ _ => Except ε Bool

/-- The function `checkPermission(grants, roles, permission)` on the store. -/
def checkPermission {ε : Type} (any : StoreMatcher ε) (s : Store) :
    (args : CheckArgs) → Store × args.Result ε
  | .one grants => (s, grants)
  | .two grants roles => permissions s grants roles
  | .three grants roles permission =>
    hasPermission any (permissions s grants roles).2 (permissions s grants roles).1 permission

/-- The method `filter` on the store: the callback runs from left to right, each call
on the store the previous one left; the first error ends the whole call. -/
def filter {ε : Type} (callback : Store → String → Store × Except ε Bool) :
    Store → List String → Store × Except ε (List String)
  | s, [] => (s, .ok [])
  | s, x :: xs =>
    match callback s x with
    | (s1, .error e) => (s1, .error e)
    | (s1, .ok keep) =>
      match filter callback s1 xs with
      | (s2, .error e) => (s2, .error e)
      | (s2, .ok rest) => (s2, .ok (if keep then x :: rest else rest))

/-- The function `findRoles(grants, permission)` on the store, called with both
arguments: `Object.keys` makes a fresh array of the keys, and `filter` a fresh array of
those it keeps, whose address is returned. -/
def findRoles {ε : Type} (any : StoreMatcher ε) (s : Store) (grants : Nat)
    (permission : String) : Store × Except ε Nat :=
  match filter (fun s1 role => any s1 permission (getProp s1 grants role))
      (s.newArray ((s.object grants).map Prod.fst)).1
      ((s.object grants).map Prod.fst) with
  | (s2, .error e) => (s2, .error e)
  | (s2, .ok kept) => ((s2.newArray kept).1, .ok (s2.newArray kept).2)

end OnStore

/-- The grants of the test suite and the role list `viewer, editor` in a store: the
grants object at address 0, the role list at address 3. -/
def mockStore : Store :=
  Store.mk
    [[("editor", 0), ("viewer", 1), ("admin", 2)]]
    [["content.edit.*", "image.upload"], ["content.view.*", "image.view"], ["*"],
     ["viewer", "editor"]]

/-! ## Lemmas on the embedding -/

theorem hasProp_iff (grants : Grants) (name : String) :
    hasProp grants name = true ↔ name ∈ keys grants := by
  simp [hasProp]

theorem hasProp_eq_false_iff (grants : Grants) (name : String) :
    hasProp grants name = false ↔ name ∉ keys grants := by
  rw [← hasProp_iff]
  cases hasProp grants name <;> simp

/-- The accumulator of the reduction only ever grows at its end. -/
theorem foldl_permissions (grants : Grants) (roles : List String) (acc : List String) :
    roles.foldl
      (fun permissions group =>
        if hasProp grants group then permissions ++ getProp grants group else permissions)
      acc
    = acc ++ permissions grants roles := by
  induction roles generalizing acc with
  | nil => simp [permissions]
  | cons group rest ih =>
    unfold permissions
    simp only [List.foldl_cons]
    rw [ih, ih (if hasProp grants group = true then [] ++ getProp grants group else [])]
    by_cases hg : hasProp grants group = true <;> simp [hg]

theorem permissions_nil (grants : Grants) : permissions grants [] = [] := rfl

theorem permissions_cons (grants : Grants) (group : String) (roles : List String) :
    permissions grants (group :: roles)
      = (if hasProp grants group then getProp grants group else []) ++ permissions grants roles := by
  conv => lhs; unfold permissions
  simp only [List.foldl_cons]
  rw [foldl_permissions]
  by_cases hg : hasProp grants group = true <;> simp [hg]

theorem permissions_append (grants : Grants) (roles₁ roles₂ : List String) :
    permissions grants (roles₁ ++ roles₂)
      = permissions grants roles₁ ++ permissions grants roles₂ := by
  induction roles₁ with
  | nil => simp [permissions_nil]
  | cons group rest ih => simp [permissions_cons, ih]

/-- The effective pattern list, as a concatenation over the known roles. -/
theorem permissions_eq_flatMap (grants : Grants) (roles : List String) :
    permissions grants roles = (roles.filter (hasProp grants)).flatMap (getProp grants) := by
  induction roles with
  | nil => rfl
  | cons group rest ih =>
    rw [permissions_cons, ih]
    by_cases hg : hasProp grants group = true <;> simp [hg, List.filter_cons]

theorem mem_permissions (grants : Grants) (roles : List String) (pattern : String) :
    pattern ∈ permissions grants roles
      ↔ ∃ role ∈ roles, role ∈ keys grants ∧ pattern ∈ getProp grants role := by
  rw [permissions_eq_flatMap]
  simp only [List.mem_flatMap, List.mem_filter, hasProp_iff]
  constructor
  · rintro ⟨role, ⟨hr, hk⟩, hp⟩
    exact ⟨role, hr, hk, hp⟩
  · rintro ⟨role, hr, hk, hp⟩
    exact ⟨role, ⟨hr, hk⟩, hp⟩

theorem permissions_eq_nil_of_unknown (grants : Grants) (roles : List String)
    (hroles : ∀ role ∈ roles, role ∉ keys grants) : permissions grants roles = [] := by
  apply List.eq_nil_iff_forall_not_mem.mpr
  intro pattern hmem
  obtain ⟨role, hr, hk, _⟩ := (mem_permissions grants roles pattern).mp hmem
  exact hroles role hr hk

/-- With a callback that never raises, `filter` is the list filter. -/
theorem filter_of_ok {ε α : Type} (callback : α → Except ε Bool) (keep : α → Bool)
    (h : ∀ x, callback x = .ok (keep x)) (xs : List α) :
    filter callback xs = .ok (xs.filter keep) := by
  induction xs with
  | nil => rfl
  | cons x rest ih =>
    simp only [filter, h x, ih, List.filter_cons]

/-- Whatever `filter` returns is a subsequence of its input. -/
theorem filter_sublist {ε α : Type} (callback : α → Except ε Bool) (xs kept : List α)
    (h : filter callback xs = .ok kept) : kept.Sublist xs := by
  induction xs generalizing kept with
  | nil =>
    simp only [filter, Except.ok.injEq] at h
    subst h
    exact List.Sublist.refl _
  | cons x rest ih =>
    simp only [filter] at h
    cases hx : callback x with
    | error e => rw [hx] at h; cases h
    | ok keep =>
      rw [hx] at h
      cases hrest : filter callback rest with
      | error e => rw [hrest] at h; cases h
      | ok tail =>
        rw [hrest] at h
        simp only [Except.ok.injEq] at h
        subst h
        cases keep
        · exact (ih tail hrest).cons x
        · exact (ih tail hrest).cons₂ x

/-- With a callback that never raises, `filter` returns. -/
theorem filter_total {ε α : Type} (callback : α → Except ε Bool)
    (h : ∀ x, ∃ b, callback x = .ok b) (xs : List α) :
    ∃ kept, filter callback xs = .ok kept := by
  induction xs with
  | nil => exact ⟨[], rfl⟩
  | cons x rest ih =>
    obtain ⟨b, hb⟩ := h x
    obtain ⟨tail, htail⟩ := ih
    exact ⟨if b then x :: tail else tail, by simp [filter, hb, htail]⟩

/-- Under a matcher that answers "some pattern matches", the full call of
`checkPermission` is the disjunction over the effective pattern list. -/
theorem checkPermission_anyOf {ε : Type} (any : Matcher ε) (isMatch : String → String → Bool)
    (hany : AnyOf any isMatch) (grants : Grants) (roles : List String) (permission : String) :
    checkPermission any (.three grants roles permission)
      = .ok ((permissions grants roles).any (isMatch permission)) :=
  hany permission (permissions grants roles)

/-- Under a matcher that answers "some pattern matches", the full call of
`findRoles` keeps the keys one of whose patterns matches. -/
theorem findRoles_anyOf {ε : Type} (any : Matcher ε) (isMatch : String → String → Bool)
    (hany : AnyOf any isMatch) (grants : Grants) (permission : String) :
    findRoles any (.two grants permission)
      = .ok ((keys grants).filter fun role => (getProp grants role).any (isMatch permission)) :=
  filter_of_ok _ _ (fun role => hany permission (getProp grants role)) (keys grants)

theorem any_permissions (isMatch : String → Bool) (grants : Grants) (roles : List String) :
    (permissions grants roles).any isMatch = true
      ↔ ∃ role ∈ roles, role ∈ keys grants ∧ ∃ pattern ∈ getProp grants role, isMatch pattern = true := by
  rw [List.any_eq_true]
  constructor
  · rintro ⟨pattern, hmem, hp⟩
    obtain ⟨role, hr, hk, hin⟩ := (mem_permissions grants roles pattern).mp hmem
    exact ⟨role, hr, hk, pattern, hin, hp⟩
  · rintro ⟨role, hr, hk, pattern, hin, hp⟩
    exact ⟨pattern, (mem_permissions grants roles pattern).mpr ⟨role, hr, hk, hin⟩, hp⟩

/-- A disjunction over a list does not depend on the order of the list. -/
theorem any_eq_of_perm {α : Type} (f : α → Bool) (xs ys : List α) (h : xs.Perm ys) :
    xs.any f = ys.any f := by
  rw [Bool.eq_iff_iff, List.any_eq_true, List.any_eq_true]
  constructor
  · rintro ⟨x, hx, hf⟩
    exact ⟨x, h.mem_iff.mp hx, hf⟩
  · rintro ⟨x, hx, hf⟩
    exact ⟨x, h.mem_iff.mpr hx, hf⟩

/-! ## Theorems -/

/-- Claim C1: under a matcher that answers "some pattern of the list matches",
both full calls return, and `checkPermission(G, R, P)` is `true` exactly when the
list `findRoles(G, P)` returns contains a role name that also occurs in `R`. -/
theorem checkPermission_iff_findRoles {ε : Type} (any : Matcher ε)
    (isMatch : String → String → Bool) (hany : AnyOf any isMatch)
    (G : Grants) (R : List String) (P : String) :
    ∃ (b : Bool) (found : List String),
      checkPermission any (.three G R P) = .ok b ∧
      findRoles any (.two G P) = .ok found ∧
      (b = true ↔ ∃ r ∈ found, r ∈ R) := by
  refine ⟨_, _, checkPermission_anyOf any isMatch hany G R P,
    findRoles_anyOf any isMatch hany G P, ?_⟩
  rw [any_permissions]
  simp only [List.mem_filter, List.any_eq_true]
  constructor
  · rintro ⟨r, hr, hk, p, hp, hm⟩
    exact ⟨r, ⟨hk, p, hp, hm⟩, hr⟩
  · rintro ⟨r, ⟨hk, p, hp, hm⟩, hr⟩
    exact ⟨r, hr, hk, p, hp, hm⟩

/-- Witness of C1: the grants of the test suite, roles `viewer` and `editor`,
permission `image.upload`. -/
theorem checkPermission_iff_findRoles_witness :
    ∃ (b : Bool) (found : List String),
      checkPermission (matchesAny : Matcher Unit)
        (.three mockGrants ["viewer", "editor"] "image.upload") = .ok b ∧
      findRoles (matchesAny : Matcher Unit) (.two mockGrants "image.upload") = .ok found ∧
      (b = true ↔ ∃ r ∈ found, r ∈ ["viewer", "editor"]) :=
  checkPermission_iff_findRoles matchesAny globMatch (fun _ _ => rfl)
    mockGrants ["viewer", "editor"] "image.upload"

/-- Claim C2: under a matcher that answers "some pattern of the list matches",
`checkPermission(G, R, P)` returns a boolean, which is `true` exactly when some
pattern of some role of `R` that is a key of `G` matches `P`; it is `false`
otherwise, in particular when the effective pattern list is empty. -/
theorem checkPermission_true_iff {ε : Type} (any : Matcher ε)
    (isMatch : String → String → Bool) (hany : AnyOf any isMatch)
    (G : Grants) (R : List String) (P : String) :
    ∃ b : Bool,
      checkPermission any (.three G R P) = .ok b ∧
      (b = true ↔ ∃ r ∈ R, r ∈ keys G ∧ ∃ p ∈ getProp G r, isMatch P p = true) ∧
      (b = false ↔ ¬ ∃ r ∈ R, r ∈ keys G ∧ ∃ p ∈ getProp G r, isMatch P p = true) ∧
      (permissions G R = [] → b = false) := by
  refine ⟨_, checkPermission_anyOf any isMatch hany G R P, any_permissions _ G R, ?_, ?_⟩
  · rw [← any_permissions (isMatch P) G R]
    cases (permissions G R).any (isMatch P) <;> simp
  · intro hnil
    rw [hnil]
    rfl

/-- Witness of C2: the grants of the test suite, role `viewer`, permission
`image.upload`. -/
theorem checkPermission_true_iff_witness :
    ∃ b : Bool,
      checkPermission (matchesAny : Matcher Unit)
        (.three mockGrants ["viewer"] "image.upload") = .ok b ∧
      (b = true ↔ ∃ r ∈ ["viewer"], r ∈ keys mockGrants ∧
        ∃ p ∈ getProp mockGrants r, globMatch "image.upload" p = true) ∧
      (b = false ↔ ¬ ∃ r ∈ ["viewer"], r ∈ keys mockGrants ∧
        ∃ p ∈ getProp mockGrants r, globMatch "image.upload" p = true) ∧
      (permissions mockGrants ["viewer"] = [] → b = false) :=
  checkPermission_true_iff matchesAny globMatch (fun _ _ => rfl)
    mockGrants ["viewer"] "image.upload"

/-- Claim C3: under a matcher that answers "some pattern of the list matches",
`findRoles(G, P)` returns a list whose elements are exactly the keys `r` of `G`
with a pattern in `G[r]` that matches `P`; a role with no pattern, or none of
whose patterns matches, is left out, and the list is empty when no role matches. -/
theorem mem_findRoles_iff {ε : Type} (any : Matcher ε)
    (isMatch : String → String → Bool) (hany : AnyOf any isMatch)
    (G : Grants) (P : String) :
    ∃ found : List String,
      findRoles any (.two G P) = .ok found ∧
      (∀ r, r ∈ found ↔ r ∈ keys G ∧ ∃ p ∈ getProp G r, isMatch P p = true) ∧
      (∀ r, getProp G r = [] → r ∉ found) ∧
      (∀ r, (∀ p ∈ getProp G r, isMatch P p = false) → r ∉ found) ∧
      ((∀ r ∈ keys G, ∀ p ∈ getProp G r, isMatch P p = false) → found = []) := by
  have hmem : ∀ r, r ∈ (keys G).filter (fun role => (getProp G role).any (isMatch P))
      ↔ r ∈ keys G ∧ ∃ p ∈ getProp G r, isMatch P p = true := by
    intro r
    simp only [List.mem_filter, List.any_eq_true]
  refine ⟨_, findRoles_anyOf any isMatch hany G P, hmem, ?_, ?_, ?_⟩
  · intro r hnil hr
    obtain ⟨_, p, hp, _⟩ := (hmem r).mp hr
    rw [hnil] at hp
    cases hp
  · intro r hnone hr
    obtain ⟨_, p, hp, hm⟩ := (hmem r).mp hr
    rw [hnone p hp] at hm
    cases hm
  · intro hnone
    apply List.eq_nil_iff_forall_not_mem.mpr
    intro r hr
    obtain ⟨hk, p, hp, hm⟩ := (hmem r).mp hr
    rw [hnone r hk p hp] at hm
    cases hm

/-- Witness of C3: the grants of the test suite, permission `image.upload`. -/
theorem mem_findRoles_iff_witness :
    ∃ found : List String,
      findRoles (matchesAny : Matcher Unit) (.two mockGrants "image.upload") = .ok found ∧
      (∀ r, r ∈ found ↔
        r ∈ keys mockGrants ∧ ∃ p ∈ getProp mockGrants r, globMatch "image.upload" p = true) ∧
      (∀ r, getProp mockGrants r = [] → r ∉ found) ∧
      (∀ r, (∀ p ∈ getProp mockGrants r, globMatch "image.upload" p = false) → r ∉ found) ∧
      ((∀ r ∈ keys mockGrants, ∀ p ∈ getProp mockGrants r,
          globMatch "image.upload" p = false) → found = []) :=
  mem_findRoles_iff matchesAny globMatch (fun _ _ => rfl) mockGrants "image.upload"

/-- Claim C4: when the matcher never raises and the keys of `G` are distinct (as the
keys of an object are), `findRoles(G, P)` returns a subsequence of `keys(G)`: its
names are keys of `G`, none occurs twice, and they keep the order of the keys. -/
theorem findRoles_sublist_keys {ε : Type} (any : Matcher ε)
    (hany : ∀ candidate patterns, ∃ b, any candidate patterns = .ok b)
    (G : Grants) (hkeys : (keys G).Nodup) (P : String) :
    ∃ found : List String,
      findRoles any (.two G P) = .ok found ∧
      found.Sublist (keys G) ∧
      (∀ r ∈ found, r ∈ keys G) ∧
      found.Nodup := by
  obtain ⟨found, hfound⟩ :=
    filter_total (fun role => any P (getProp G role)) (fun role => hany P (getProp G role)) (keys G)
  have hsub : found.Sublist (keys G) := filter_sublist _ _ _ hfound
  exact ⟨found, hfound, hsub, fun r hr => hsub.subset hr, hsub.nodup hkeys⟩

/-- Witness of C4: the grants of the test suite, permission `image.upload`. -/
theorem findRoles_sublist_keys_witness :
    (keys mockGrants).Nodup ∧
    ∃ found : List String,
      findRoles (matchesAny : Matcher Unit) (.two mockGrants "image.upload") = .ok found ∧
      found.Sublist (keys mockGrants) ∧
      (∀ r ∈ found, r ∈ keys mockGrants) ∧
      found.Nodup :=
  ⟨by decide,
    findRoles_sublist_keys matchesAny (fun _ _ => ⟨_, rfl⟩) mockGrants (by decide) "image.upload"⟩

/-- Claim C5: a role name that is not a key of `G` is inert at the end of the role
list: `checkPermission(G, R ++ [u], P)` and `checkPermission(G, R, P)` pass the same
pattern list to the matcher and so are equal, whatever the matcher. -/
theorem checkPermission_append_unknown {ε : Type} (any : Matcher ε)
    (G : Grants) (R : List String) (P : String) (u : String) (hu : u ∉ keys G) :
    permissions G (R ++ [u]) = permissions G R ∧
    checkPermission any (.three G (R ++ [u]) P) = checkPermission any (.three G R P) := by
  have hperm : permissions G (R ++ [u]) = permissions G R := by
    rw [permissions_append, permissions_cons, permissions_nil,
      (hasProp_eq_false_iff G u).mpr hu]
    simp
  refine ⟨hperm, ?_⟩
  show hasPermission any (permissions G (R ++ [u])) P = hasPermission any (permissions G R) P
  rw [hperm]

/-- Witness of C5: the test suite's unknown role `nonsense` after `editor`. -/
theorem checkPermission_append_unknown_witness :
    "nonsense" ∉ keys mockGrants ∧
    permissions mockGrants (["editor"] ++ ["nonsense"]) = permissions mockGrants ["editor"] ∧
    checkPermission (matchesAny : Matcher Unit)
        (.three mockGrants (["editor"] ++ ["nonsense"]) "image.upload")
      = checkPermission (matchesAny : Matcher Unit)
        (.three mockGrants ["editor"] "image.upload") :=
  ⟨by decide,
    checkPermission_append_unknown matchesAny mockGrants ["editor"] "image.upload" "nonsense"
      (by decide)⟩

/-- Claim C6: binding the leading arguments of `checkPermission` preserves the
result: `checkPermission(G)(R, P)`, `checkPermission(G, R)(P)` and
`checkPermission(G)(R)(P)` all equal `checkPermission(G, R, P)`, the verifier bound at
`(G, R)` holds exactly the pattern list the full call computes, and calling a bound
function any number of times with the same arguments gives that same result each time. -/
theorem checkPermission_bound_eq {ε : Type} (any : Matcher ε)
    (G : Grants) (R : List String) (P : String) :
    BoundCheck.call any (checkPermission any (.one G)) (.two R P)
      = checkPermission any (.three G R P) ∧
    Verifier.call any (checkPermission any (.two G R)) P
      = checkPermission any (.three G R P) ∧
    Verifier.call any (BoundCheck.call any (checkPermission any (.one G)) (.one R)) P
      = checkPermission any (.three G R P) ∧
    Verifier.permissions (checkPermission any (.two G R)) = permissions G R ∧
    (∀ n : Nat,
      (List.replicate n (R, P)).map
          (fun a => BoundCheck.call any (checkPermission any (.one G)) (.two a.1 a.2))
        = List.replicate n (checkPermission any (.three G R P))) ∧
    (∀ n : Nat,
      (List.replicate n P).map (Verifier.call any (checkPermission any (.two G R)))
        = List.replicate n (checkPermission any (.three G R P))) := by
  refine ⟨rfl, rfl, rfl, rfl, ?_, ?_⟩
  · intro n
    rw [List.map_replicate]
    rfl
  · intro n
    rw [List.map_replicate]
    rfl

/-- Claim C7, the code at the failing input: the role `admin` of the test suite's
grants, and the role `superadmin` of the grants in the documentation of
`checkPermission`, hold the pattern `*`, which the documentation says gives "all
permissions (even the ones we haven't thought of yet)".  Yet for the permission
`reports/export`, which contains a path separator, `checkPermission` returns `false`
and `findRoles` returns no role, on both grants. -/
theorem wildcard_stops_at_separator :
    ("admin" ∈ ["admin"] ∧ "admin" ∈ keys mockGrants ∧ "*" ∈ getProp mockGrants "admin" ∧
      checkPermission (matchesAny : Matcher Unit)
        (.three mockGrants ["admin"] "reports/export") = .ok false ∧
      findRoles (matchesAny : Matcher Unit) (.two mockGrants "reports/export") = .ok []) ∧
    ("superadmin" ∈ ["superadmin"] ∧ "superadmin" ∈ keys docGrants ∧
      "*" ∈ getProp docGrants "superadmin" ∧
      checkPermission (matchesAny : Matcher Unit)
        (.three docGrants ["superadmin"] "reports/export") = .ok false ∧
      findRoles (matchesAny : Matcher Unit) (.two docGrants "reports/export") = .ok []) :=
  ⟨⟨by decide, by decide, by decide, rfl, rfl⟩, ⟨by decide, by decide, by decide, rfl, rfl⟩⟩

/-- Claim C8: when no element of `R` is a key of `G` (`R` empty, `G` empty, or names
such as `toString` that an object only inherits), the effective pattern list is empty
and, under a matcher that answers "some pattern of the list matches",
`checkPermission(G, R, P)` returns `false` and raises nothing. -/
theorem checkPermission_unknown_roles {ε : Type} (any : Matcher ε)
    (isMatch : String → String → Bool) (hany : AnyOf any isMatch)
    (G : Grants) (R : List String) (P : String)
    (hR : ∀ r ∈ R, r ∉ keys G) :
    permissions G R = [] ∧ checkPermission any (.three G R P) = .ok false := by
  have hnil := permissions_eq_nil_of_unknown G R hR
  refine ⟨hnil, ?_⟩
  rw [checkPermission_anyOf any isMatch hany G R P, hnil]
  rfl

/-- Witness of C8: the test suite's roles `toString` and `nonsense`. -/
theorem checkPermission_unknown_roles_witness :
    (∀ r ∈ ["toString", "nonsense"], r ∉ keys mockGrants) ∧
    permissions mockGrants ["toString", "nonsense"] = [] ∧
    checkPermission (matchesAny : Matcher Unit)
      (.three mockGrants ["toString", "nonsense"] "nonsense") = .ok false :=
  ⟨by decide,
    checkPermission_unknown_roles matchesAny globMatch (fun _ _ => rfl)
      mockGrants ["toString", "nonsense"] "nonsense" (by decide)⟩

/-- Claim C9: the order of the patterns within a role does not matter.  When `G2` has
the keys of `G` in the same order and each `G2[r]` is a permutation of `G[r]`, then,
under a matcher that answers "some pattern of the list matches", `checkPermission`
returns the same boolean and `findRoles` the same list on `G2` as on `G`. -/
theorem pattern_order_irrelevant {ε : Type} (any : Matcher ε)
    (isMatch : String → String → Bool) (hany : AnyOf any isMatch)
    (G G2 : Grants) (hkeys : keys G2 = keys G)
    (hperm : ∀ r ∈ keys G, (getProp G2 r).Perm (getProp G r))
    (R : List String) (P : String) :
    (∃ b : Bool,
      checkPermission any (.three G2 R P) = .ok b ∧
      checkPermission any (.three G R P) = .ok b) ∧
    (∃ found : List String,
      findRoles any (.two G2 P) = .ok found ∧
      findRoles any (.two G P) = .ok found) := by
  have hrole : ∀ r ∈ keys G,
      (getProp G2 r).any (isMatch P) = (getProp G r).any (isMatch P) :=
    fun r hr => any_eq_of_perm _ _ _ (hperm r hr)
  constructor
  · refine ⟨_, ?_, checkPermission_anyOf any isMatch hany G R P⟩
    rw [checkPermission_anyOf any isMatch hany G2 R P]
    apply congrArg Except.ok
    rw [Bool.eq_iff_iff, any_permissions, any_permissions, hkeys]
    constructor
    · rintro ⟨r, hr, hk, p, hp, hm⟩
      exact ⟨r, hr, hk, p, ((hperm r hk).mem_iff).mp hp, hm⟩
    · rintro ⟨r, hr, hk, p, hp, hm⟩
      exact ⟨r, hr, hk, p, ((hperm r hk).mem_iff).mpr hp, hm⟩
  · refine ⟨_, ?_, findRoles_anyOf any isMatch hany G P⟩
    rw [findRoles_anyOf any isMatch hany G2 P, hkeys]
    apply congrArg Except.ok
    exact List.filter_congr (fun r hr => hrole r hr)

/-- Witness of C9: the grants of the test suite against the same grants with each
role's patterns swapped. -/
theorem pattern_order_irrelevant_witness :
    (keys mockGrantsReordered = keys mockGrants ∧
      ∀ r ∈ keys mockGrants, (getProp mockGrantsReordered r).Perm (getProp mockGrants r)) ∧
    (∃ b : Bool,
      checkPermission (matchesAny : Matcher Unit)
        (.three mockGrantsReordered ["viewer", "editor"] "image.upload") = .ok b ∧
      checkPermission (matchesAny : Matcher Unit)
        (.three mockGrants ["viewer", "editor"] "image.upload") = .ok b) ∧
    (∃ found : List String,
      findRoles (matchesAny : Matcher Unit) (.two mockGrantsReordered "image.upload") = .ok found ∧
      findRoles (matchesAny : Matcher Unit) (.two mockGrants "image.upload") = .ok found) :=
  ⟨⟨by decide, by decide⟩,
    pattern_order_irrelevant matchesAny globMatch (fun _ _ => rfl)
      mockGrants mockGrantsReordered (by decide) (by decide)
      ["viewer", "editor"] "image.upload"⟩

/-- Claim C10: on the grants of the test suite, with the modelled matcher,
`findRoles` returns exactly `editor, admin` for `image.upload` and exactly `admin` for
`unlisted.nonsense`, and `checkPermission` returns `false` for the role `viewer` and
`true` for the roles `viewer, editor`, both on `image.upload`. -/
theorem mockGrants_scenarios (ε : Type) :
    findRoles (matchesAny : Matcher ε) (.two mockGrants "image.upload")
      = .ok ["editor", "admin"] ∧
    findRoles (matchesAny : Matcher ε) (.two mockGrants "unlisted.nonsense")
      = .ok ["admin"] ∧
    checkPermission (matchesAny : Matcher ε) (.three mockGrants ["viewer"] "image.upload")
      = .ok false ∧
    checkPermission (matchesAny : Matcher ε)
        (.three mockGrants ["viewer", "editor"] "image.upload")
      = .ok true :=
  ⟨rfl, rfl, rfl, rfl⟩

/-! ## Binding `findRoles`, and errors of the matcher -/

/-- Claim C11: binding the first argument of `findRoles` preserves the result:
`findRoles(G)(P)` equals `findRoles(G, P)`, and the bound function holds `G`. -/
theorem findRoles_bound_eq {ε : Type} (any : Matcher ε) (G : Grants) (P : String) :
    BoundFind.call any (findRoles any (.one G)) P = findRoles any (.two G P) ∧
    BoundFind.grants (findRoles any (.one G)) = G :=
  ⟨rfl, rfl⟩

/-- When the callback raises on some element, `filter` raises: it ends with the error
of an element the callback raises on. -/
theorem filter_error {ε α : Type} (callback : α → Except ε Bool) (xs : List α)
    (h : ∃ x ∈ xs, ∃ e, callback x = .error e) :
    ∃ x ∈ xs, ∃ e, callback x = .error e ∧ filter callback xs = .error e := by
  induction xs with
  | nil =>
    obtain ⟨x, hx, _⟩ := h
    cases hx
  | cons y rest ih =>
    cases hy : callback y with
    | error e =>
      exact ⟨y, List.mem_cons_self _ _, e, hy, by simp [filter, hy]⟩
    | ok keep =>
      have hrest : ∃ x ∈ rest, ∃ e, callback x = .error e := by
        obtain ⟨x, hx, e, he⟩ := h
        rcases List.mem_cons.mp hx with hxy | hxr
        · rw [hxy, hy] at he
          cases he
        · exact ⟨x, hxr, e, he⟩
      obtain ⟨x, hx, e, he, hf⟩ := ih hrest
      exact ⟨x, List.mem_cons_of_mem _ hx, e, he, by simp [filter, hy, hf]⟩

/-- Claim C12: an error of the matcher is never turned into a negative result.  If the
matcher raises `e` on `P` and the effective pattern list, `checkPermission(G, R, P)`
raises `e` and returns no boolean; if the matcher raises on `P` and the pattern list of
some key of `G`, `findRoles(G, P)` raises the error of such a key and returns no list. -/
theorem matcher_error_propagates {ε : Type} (any : Matcher ε)
    (G : Grants) (R : List String) (P : String) :
    (∀ e, any P (permissions G R) = .error e →
      checkPermission any (.three G R P) = .error e ∧
      ∀ b : Bool, checkPermission any (.three G R P) ≠ .ok b) ∧
    ((∃ r ∈ keys G, ∃ e, any P (getProp G r) = .error e) →
      (∃ r ∈ keys G, ∃ e, any P (getProp G r) = .error e ∧
        findRoles any (.two G P) = .error e) ∧
      ∀ found : List String, findRoles any (.two G P) ≠ .ok found) := by
  constructor
  · intro e he
    have hcall : checkPermission any (.three G R P) = .error e := he
    refine ⟨hcall, ?_⟩
    intro b hb
    rw [hcall] at hb
    cases hb
  · intro h
    obtain ⟨r, hr, e, he, hf⟩ :=
      filter_error (fun role => any P (getProp G role)) (keys G) h
    have hcall : findRoles any (.two G P) = .error e := hf
    refine ⟨⟨r, hr, e, he, hcall⟩, ?_⟩
    intro found hfound
    rw [hcall] at hfound
    cases hfound

/-- Witness of C12: a role with a malformed pattern, under a matcher that raises on it. -/
theorem matcher_error_propagates_witness :
    (strictAny "image.upload" (permissions brokenGrants ["editor", "broken"])
        = .error "malformed pattern" ∧
      ∃ r ∈ keys brokenGrants, ∃ e,
        strictAny "image.upload" (getProp brokenGrants r) = .error e) ∧
    (checkPermission strictAny (.three brokenGrants ["editor", "broken"] "image.upload")
        = .error "malformed pattern" ∧
      ∀ b : Bool,
        checkPermission strictAny (.three brokenGrants ["editor", "broken"] "image.upload")
          ≠ .ok b) ∧
    (∃ r ∈ keys brokenGrants, ∃ e,
        strictAny "image.upload" (getProp brokenGrants r) = .error e ∧
        findRoles strictAny (.two brokenGrants "image.upload") = .error e) ∧
    ∀ found : List String,
      findRoles strictAny (.two brokenGrants "image.upload") ≠ .ok found :=
  ⟨⟨rfl, "broken", by decide, "malformed pattern", rfl⟩,
    (matcher_error_propagates strictAny brokenGrants ["editor", "broken"] "image.upload").1
      "malformed pattern" rfl,
    (matcher_error_propagates strictAny brokenGrants ["editor", "broken"] "image.upload").2
      ⟨"broken", by decide, "malformed pattern", rfl⟩⟩

/-! ## The effective pattern list, composition of roles, additivity of grants -/

theorem hasProp_eq_decide (grants : Grants) :
    hasProp grants = fun role => decide (role ∈ keys grants) := by
  funext role
  rw [Bool.eq_iff_iff, hasProp_iff]
  simp

/-- Claim C14: the effective pattern list `checkPermission` builds for `(G, R)` is the
concatenation, in the order of `R`, of `G[r]` for exactly the elements `r` of `R` that are
keys of `G`.  Duplicates are kept: a role listed twice contributes twice, and each
pattern occurs as often as the roles of `R` hold it in total; the length is the sum of
the lengths of those `G[r]`. -/
theorem permissions_eq_concat (G : Grants) (R : List String) :
    permissions G R
      = ((R.filter fun r => decide (r ∈ keys G)).map (getProp G)).flatten ∧
    (permissions G R).length
      = ((R.filter fun r => decide (r ∈ keys G)).map fun r => (getProp G r).length).sum ∧
    (∀ p : String,
      (permissions G R).count p
        = ((R.filter fun r => decide (r ∈ keys G)).map fun r => (getProp G r).count p).sum) ∧
    (∀ r ∈ keys G, permissions G [r, r] = getProp G r ++ getProp G r) ∧
    (∀ (ε : Type) (any : Matcher ε),
      Verifier.permissions (checkPermission any (.two G R)) = permissions G R) := by
  have heq : permissions G R
      = ((R.filter fun r => decide (r ∈ keys G)).map (getProp G)).flatten := by
    rw [permissions_eq_flatMap, hasProp_eq_decide, List.flatMap]
  refine ⟨heq, ?_, ?_, ?_, fun _ _ => rfl⟩
  · rw [heq, List.length_flatten, List.map_map]
    rfl
  · intro p
    rw [heq, List.count_flatten, List.map_map]
    rfl
  · intro r hr
    rw [permissions_cons, permissions_cons, permissions_nil, (hasProp_iff G r).mpr hr]
    simp

/-- Claim C15: roles compose by disjunction.  Under a matcher that answers "some pattern
of the list matches", `checkPermission(G, R1 ++ R2, P)` is the disjunction of
`checkPermission(G, R1, P)` and `checkPermission(G, R2, P)`; the result is the same for
two role lists with the same elements (reordered or repeated), and adding roles on
either side never turns `true` into `false`. -/
theorem checkPermission_append_or {ε : Type} (any : Matcher ε)
    (isMatch : String → String → Bool) (hany : AnyOf any isMatch)
    (G : Grants) (R1 R2 : List String) (P : String) :
    (∃ b1 b2 : Bool,
      checkPermission any (.three G R1 P) = .ok b1 ∧
      checkPermission any (.three G R2 P) = .ok b2 ∧
      checkPermission any (.three G (R1 ++ R2) P) = .ok (b1 || b2)) ∧
    ((∀ r, r ∈ R1 ↔ r ∈ R2) →
      checkPermission any (.three G R1 P) = checkPermission any (.three G R2 P)) ∧
    (checkPermission any (.three G R1 P) = .ok true →
      checkPermission any (.three G (R1 ++ R2) P) = .ok true ∧
      checkPermission any (.three G (R2 ++ R1) P) = .ok true) := by
  have happ : ∀ A B : List String,
      checkPermission any (.three G (A ++ B) P)
        = .ok ((permissions G A).any (isMatch P) || (permissions G B).any (isMatch P)) := by
    intro A B
    rw [checkPermission_anyOf any isMatch hany, permissions_append, List.any_append]
  refine ⟨⟨_, _, checkPermission_anyOf any isMatch hany G R1 P,
    checkPermission_anyOf any isMatch hany G R2 P, happ R1 R2⟩, ?_, ?_⟩
  · intro hsame
    rw [checkPermission_anyOf any isMatch hany, checkPermission_anyOf any isMatch hany]
    apply congrArg Except.ok
    rw [Bool.eq_iff_iff, any_permissions, any_permissions]
    constructor
    · rintro ⟨r, hr, rest⟩
      exact ⟨r, (hsame r).mp hr, rest⟩
    · rintro ⟨r, hr, rest⟩
      exact ⟨r, (hsame r).mpr hr, rest⟩
  · intro htrue
    rw [checkPermission_anyOf any isMatch hany] at htrue
    have h1 : (permissions G R1).any (isMatch P) = true := Except.ok.inj htrue
    rw [happ R1 R2, happ R2 R1, h1]
    simp

/-- Witness of C15: the test suite's roles `editor` and `viewer`, in both orders. -/
theorem checkPermission_append_or_witness :
    ((∀ r, r ∈ ["editor", "viewer"] ↔ r ∈ ["viewer", "editor", "viewer"]) ∧
      checkPermission (matchesAny : Matcher Unit)
        (.three mockGrants ["editor", "viewer"] "image.upload") = .ok true) ∧
    (∃ b1 b2 : Bool,
      checkPermission (matchesAny : Matcher Unit)
        (.three mockGrants ["editor", "viewer"] "image.upload") = .ok b1 ∧
      checkPermission (matchesAny : Matcher Unit)
        (.three mockGrants ["viewer", "editor", "viewer"] "image.upload") = .ok b2 ∧
      checkPermission (matchesAny : Matcher Unit)
        (.three mockGrants (["editor", "viewer"] ++ ["viewer", "editor", "viewer"])
          "image.upload") = .ok (b1 || b2)) ∧
    checkPermission (matchesAny : Matcher Unit)
        (.three mockGrants ["editor", "viewer"] "image.upload")
      = checkPermission (matchesAny : Matcher Unit)
        (.three mockGrants ["viewer", "editor", "viewer"] "image.upload") ∧
    checkPermission (matchesAny : Matcher Unit)
      (.three mockGrants (["editor", "viewer"] ++ ["viewer", "editor", "viewer"])
        "image.upload") = .ok true ∧
    checkPermission (matchesAny : Matcher Unit)
      (.three mockGrants (["viewer", "editor", "viewer"] ++ ["editor", "viewer"])
        "image.upload") = .ok true :=
  have hsame : ∀ r, r ∈ ["editor", "viewer"] ↔ r ∈ ["viewer", "editor", "viewer"] := by
    intro r
    simp only [List.mem_cons, List.mem_singleton, List.not_mem_nil, or_false]
    constructor
    · rintro (h | h)
      · exact Or.inr (Or.inl h)
      · exact Or.inl h
    · rintro (h | h | h)
      · exact Or.inr h
      · exact Or.inl h
      · exact Or.inr h
  have hall := checkPermission_append_or (matchesAny : Matcher Unit) globMatch (fun _ _ => rfl)
    mockGrants ["editor", "viewer"] ["viewer", "editor", "viewer"] "image.upload"
  ⟨⟨hsame, rfl⟩, hall.1, hall.2.1 hsame, hall.2.2 rfl⟩

theorem filter_sublist_filter_of_imp {α : Type} (p q : α → Bool) (xs : List α)
    (h : ∀ x ∈ xs, p x = true → q x = true) : (xs.filter p).Sublist (xs.filter q) := by
  induction xs with
  | nil => exact List.Sublist.refl _
  | cons x rest ih =>
    have hrest := ih (fun y hy => h y (List.mem_cons_of_mem _ hy))
    cases hp : p x with
    | false =>
      cases hq : q x with
      | false => simpa [List.filter_cons, hp, hq] using hrest
      | true => simpa [List.filter_cons, hp, hq] using hrest.cons x
    | true =>
      have hq : q x = true := h x (List.mem_cons_self _ _) hp
      simpa [List.filter_cons, hp, hq] using hrest.cons₂ x

/-- Claim C16: grants are additive.  Let `G2` hold the keys of `G` first, in the same
order, possibly followed by new roles, and let each `G2[r]` for a key `r` of `G` be `G[r]`
possibly followed by extra patterns.  Under a matcher that answers "some pattern of the
list matches" (whatever the patterns are, a negated one included),
`checkPermission(G, R, P) = true` implies `checkPermission(G2, R, P) = true`, and the
list `findRoles(G, P)` returns is a subsequence of the one `findRoles(G2, P)` returns. -/
theorem grants_additive {ε : Type} (any : Matcher ε)
    (isMatch : String → String → Bool) (hany : AnyOf any isMatch)
    (G G2 : Grants) (hkeys : keys G <+: keys G2)
    (hpatterns : ∀ r ∈ keys G, getProp G r <+: getProp G2 r)
    (R : List String) (P : String) :
    (checkPermission any (.three G R P) = .ok true →
      checkPermission any (.three G2 R P) = .ok true) ∧
    ∃ found found2 : List String,
      findRoles any (.two G P) = .ok found ∧
      findRoles any (.two G2 P) = .ok found2 ∧
      found.Sublist found2 := by
  constructor
  · intro htrue
    rw [checkPermission_anyOf any isMatch hany] at htrue
    rw [checkPermission_anyOf any isMatch hany]
    apply congrArg Except.ok
    obtain ⟨r, hr, hk, p, hp, hm⟩ := (any_permissions (isMatch P) G R).mp (Except.ok.inj htrue)
    exact (any_permissions (isMatch P) G2 R).mpr
      ⟨r, hr, hkeys.subset hk, p, (hpatterns r hk).subset hp, hm⟩
  · refine ⟨_, _, findRoles_anyOf any isMatch hany G P, findRoles_anyOf any isMatch hany G2 P, ?_⟩
    refine List.Sublist.trans
      (filter_sublist_filter_of_imp _ (fun role => (getProp G2 role).any (isMatch P)) _ ?_)
      (hkeys.sublist.filter _)
    intro r hr hmatch
    obtain ⟨p, hp, hm⟩ := List.any_eq_true.mp hmatch
    exact List.any_eq_true.mpr ⟨p, (hpatterns r hr).subset hp, hm⟩

/-- Witness of C16: the grants of the test suite, extended by a pattern for `editor`
and by the role `auditor`. -/
theorem grants_additive_witness :
    (keys mockGrants <+: keys mockGrantsExtended ∧
      (∀ r ∈ keys mockGrants, getProp mockGrants r <+: getProp mockGrantsExtended r) ∧
      checkPermission (matchesAny : Matcher Unit)
        (.three mockGrants ["editor"] "image.upload") = .ok true) ∧
    checkPermission (matchesAny : Matcher Unit)
      (.three mockGrantsExtended ["editor"] "image.upload") = .ok true ∧
    ∃ found found2 : List String,
      findRoles (matchesAny : Matcher Unit) (.two mockGrants "image.upload") = .ok found ∧
      findRoles (matchesAny : Matcher Unit) (.two mockGrantsExtended "image.upload")
        = .ok found2 ∧
      found.Sublist found2 :=
  have hall := grants_additive (matchesAny : Matcher Unit) globMatch (fun _ _ => rfl)
    mockGrants mockGrantsExtended (by decide) (by decide) ["editor"] "image.upload"
  ⟨⟨by decide, by decide, rfl⟩, hall.1 rfl, hall.2⟩

/-! ## Evaluation leaves its inputs as they are -/

theorem extends_refl (s : Store) : s.Extends s :=
  ⟨List.prefix_refl _, List.prefix_refl _⟩

theorem extends_trans {s t u : Store} (h₁ : s.Extends t) (h₂ : t.Extends u) : s.Extends u :=
  ⟨h₁.1.trans h₂.1, h₁.2.trans h₂.2⟩

theorem extends_newArray (s : Store) (contents : List String) :
    s.Extends (s.newArray contents).1 :=
  ⟨List.prefix_refl _, List.prefix_append _ _⟩

theorem array_eq_of_extends {s t : Store} (h : s.Extends t) (a : Nat)
    (ha : a < s.arrays.length) : t.array a = s.array a := by
  obtain ⟨extra, hextra⟩ := h.2
  unfold Store.array
  rw [← hextra]
  exact List.getD_append _ _ _ _ ha

theorem object_eq_of_extends {s t : Store} (h : s.Extends t) (o : Nat)
    (ho : o < s.objects.length) : t.object o = s.object o := by
  obtain ⟨extra, hextra⟩ := h.1
  unfold Store.object
  rw [← hextra]
  exact List.getD_append _ _ _ _ ho

theorem grants_eq_of_extends {s t : Store} (h : s.Extends t) (grants : Nat)
    (hgrants : grants < s.objects.length)
    (hrefs : ∀ entry ∈ s.object grants, entry.2 < s.arrays.length) :
    t.grants grants = s.grants grants := by
  unfold Store.grants
  rw [object_eq_of_extends h grants hgrants]
  apply List.map_congr_left
  intro entry hentry
  rw [array_eq_of_extends h entry.2 (hrefs entry hentry)]

/-- A later store that only extends the first one reads the same inputs back. -/
theorem unchanged_of_extends {s t : Store} (h : s.Extends t) (grants roles : Nat)
    (hgrants : grants < s.objects.length) (hroles : roles < s.arrays.length)
    (hrefs : ∀ entry ∈ s.object grants, entry.2 < s.arrays.length) :
    s.Unchanged t grants roles :=
  ⟨grants_eq_of_extends h grants hgrants hrefs, array_eq_of_extends h roles hroles⟩

theorem foldl_concat_extends (s : Store) (grants : Nat) (roles : List String)
    (acc : Store × Nat) (hacc : s.Extends acc.1) :
    s.Extends (roles.foldl
      (fun (acc : Store × Nat) group =>
        if OnStore.hasProp acc.1 grants group then
          OnStore.concat acc.1 acc.2 (OnStore.getProp acc.1 grants group)
        else acc)
      acc).1 := by
  induction roles generalizing acc with
  | nil => exact hacc
  | cons group rest ih =>
    simp only [List.foldl_cons]
    apply ih
    by_cases hg : OnStore.hasProp acc.1 grants group = true
    · rw [if_pos hg]
      exact extends_trans hacc (extends_newArray _ _)
    · rw [if_neg hg]
      exact hacc

theorem permissions_extends (s : Store) (grants roles : Nat) :
    s.Extends (OnStore.permissions s grants roles).1 :=
  foldl_concat_extends s grants (s.array roles) (s.newArray []) (extends_newArray s [])

theorem filter_extends {ε : Type} (callback : Store → String → Store × Except ε Bool)
    (hcallback : ∀ (s : Store) (x : String), s.Extends (callback s x).1)
    (s : Store) (xs : List String) :
    s.Extends (OnStore.filter callback s xs).1 := by
  induction xs generalizing s with
  | nil => exact extends_refl s
  | cons x rest ih =>
    have hx := hcallback s x
    unfold OnStore.filter
    cases hc : callback s x with
    | mk s1 outcome =>
      rw [hc] at hx
      have hstep : s.Extends s1 := hx
      cases outcome with
      | error e => exact hstep
      | ok keep =>
        have hrest := ih s1
        dsimp only
        cases hf : OnStore.filter callback s1 rest with
        | mk s2 outcome2 =>
          rw [hf] at hrest
          have hlast : s1.Extends s2 := hrest
          cases outcome2 with
          | error e => exact extends_trans hstep hlast
          | ok kept => exact extends_trans hstep hlast

theorem checkPermission_extends {ε : Type} (any : StoreMatcher ε)
    (hany : ∀ (s : Store) (candidate : String) (patterns : Nat),
      s.Extends (any s candidate patterns).1)
    (s : Store) (grants roles : Nat) (permission : String) :
    s.Extends (OnStore.checkPermission any s (.three grants roles permission)).1 :=
  extends_trans (permissions_extends s grants roles) (hany _ _ _)

theorem findRoles_extends {ε : Type} (any : StoreMatcher ε)
    (hany : ∀ (s : Store) (candidate : String) (patterns : Nat),
      s.Extends (any s candidate patterns).1)
    (s : Store) (grants : Nat) (permission : String) :
    s.Extends (OnStore.findRoles any s grants permission).1 := by
  have hfilter := filter_extends
    (fun s1 role => any s1 permission (OnStore.getProp s1 grants role))
    (fun s1 role => hany s1 permission _)
    (s.newArray ((s.object grants).map Prod.fst)).1 ((s.object grants).map Prod.fst)
  have hkeys := extends_newArray s ((s.object grants).map Prod.fst)
  unfold OnStore.findRoles
  cases hf : OnStore.filter (fun s1 role => any s1 permission (OnStore.getProp s1 grants role))
      (s.newArray ((s.object grants).map Prod.fst)).1 ((s.object grants).map Prod.fst) with
  | mk s2 outcome =>
    rw [hf] at hfilter
    cases outcome with
    | error e => exact extends_trans hkeys hfilter
    | ok kept => exact extends_trans hkeys (extends_trans hfilter (extends_newArray _ _))

/-- Claim C13: evaluation does not mutate its inputs.  On a store in which the grants
object `G`, its pattern arrays and the role array `R` exist, and with a matcher that
itself changes no existing object or array, the grants table (keys and every pattern
list) and the role list read the same after `checkPermission(G, R, P)`, after
`checkPermission(G)`, after `checkPermission(G, R)` and a call of the function it
returns, and after `findRoles(G, P)`. -/
theorem inputs_unchanged {ε : Type} (any : StoreMatcher ε)
    (hany : ∀ (s : Store) (candidate : String) (patterns : Nat),
      s.Extends (any s candidate patterns).1)
    (s : Store) (G R : Nat) (P : String)
    (hG : G < s.objects.length) (hR : R < s.arrays.length)
    (hrefs : ∀ entry ∈ s.object G, entry.2 < s.arrays.length) :
    s.Unchanged (OnStore.checkPermission any s (.three G R P)).1 G R ∧
    s.Unchanged (OnStore.checkPermission any s (.one G)).1 G R ∧
    s.Unchanged (OnStore.checkPermission any s (.two G R)).1 G R ∧
    s.Unchanged
      (OnStore.hasPermission any (OnStore.checkPermission any s (.two G R)).2
        (OnStore.checkPermission any s (.two G R)).1 P).1 G R ∧
    s.Unchanged (OnStore.findRoles any s G P).1 G R :=
  ⟨unchanged_of_extends (checkPermission_extends any hany s G R P) G R hG hR hrefs,
    unchanged_of_extends (extends_refl s) G R hG hR hrefs,
    unchanged_of_extends (permissions_extends s G R) G R hG hR hrefs,
    unchanged_of_extends (checkPermission_extends any hany s G R P) G R hG hR hrefs,
    unchanged_of_extends (findRoles_extends any hany s G P) G R hG hR hrefs⟩

/-- Witness of C13: the grants of the test suite and the roles `viewer, editor` in a
store, with the modelled matcher reading the pattern array. -/
theorem inputs_unchanged_witness :
    (0 < mockStore.objects.length ∧ 3 < mockStore.arrays.length ∧
      ∀ entry ∈ mockStore.object 0, entry.2 < mockStore.arrays.length) ∧
    mockStore.Unchanged
      (OnStore.checkPermission (onStore (matchesAny : Matcher Unit)) mockStore
        (.three 0 3 "image.upload")).1 0 3 ∧
    mockStore.Unchanged
      (OnStore.checkPermission (onStore (matchesAny : Matcher Unit)) mockStore (.one 0)).1 0 3 ∧
    mockStore.Unchanged
      (OnStore.checkPermission (onStore (matchesAny : Matcher Unit)) mockStore (.two 0 3)).1 0 3 ∧
    mockStore.Unchanged
      (OnStore.hasPermission (onStore (matchesAny : Matcher Unit))
        (OnStore.checkPermission (onStore (matchesAny : Matcher Unit)) mockStore (.two 0 3)).2
        (OnStore.checkPermission (onStore (matchesAny : Matcher Unit)) mockStore (.two 0 3)).1
        "image.upload").1 0 3 ∧
    mockStore.Unchanged
      (OnStore.findRoles (onStore (matchesAny : Matcher Unit)) mockStore 0 "image.upload").1 0 3 :=
  ⟨⟨by decide, by decide, by decide⟩,
    inputs_unchanged (onStore (matchesAny : Matcher Unit))
      (fun s _ _ => ⟨List.prefix_refl s.objects, List.prefix_refl s.arrays⟩)
      mockStore 0 3 "image.upload" (by decide) (by decide) (by decide)⟩

/-! ## The store model computes what the functions on values compute -/

theorem array_newArray (s : Store) (contents : List String) :
    (s.newArray contents).1.array (s.newArray contents).2 = contents := by
  simp [Store.newArray, Store.array, List.getD_eq_getElem?_getD]

theorem store_hasProp (s : Store) (grants : Nat) (name : String) :
    OnStore.hasProp s grants name = hasProp (s.grants grants) name := by
  simp [OnStore.hasProp, hasProp, keys, Store.grants, List.map_map, Function.comp_def]

theorem lookup_map_snd {β : Type} (f : Nat → β) (name : String) (entries : List (String × Nat)) :
    (entries.map fun entry => (entry.1, f entry.2)).lookup name
      = (entries.lookup name).map f := by
  induction entries with
  | nil => rfl
  | cons entry rest ih =>
    obtain ⟨key, value⟩ := entry
    simp only [List.map_cons, List.lookup_cons]
    cases name == key <;> simp [ih]

theorem lookup_isSome_of_mem (name : String) (entries : List (String × Nat))
    (h : name ∈ entries.map Prod.fst) : ∃ a, entries.lookup name = some a := by
  induction entries with
  | nil => cases h
  | cons entry rest ih =>
    obtain ⟨key, value⟩ := entry
    simp only [List.lookup_cons]
    cases hkey : name == key with
    | true => exact ⟨value, rfl⟩
    | false =>
      rcases List.mem_cons.mp h with hhead | htail
      · have : (name == key) = true := by simpa using hhead
        rw [hkey] at this
        cases this
      · exact ih htail

theorem store_getProp (s : Store) (grants : Nat) (name : String)
    (h : OnStore.hasProp s grants name = true) :
    s.array (OnStore.getProp s grants name) = getProp (s.grants grants) name := by
  have hmem : name ∈ (s.object grants).map Prod.fst := by
    simpa [OnStore.hasProp] using h
  obtain ⟨a, ha⟩ := lookup_isSome_of_mem name (s.object grants) hmem
  unfold OnStore.getProp getProp Store.grants
  rw [lookup_map_snd, ha]
  rfl

theorem foldl_concat_array (s : Store) (grants : Nat)
    (hgrants : grants < s.objects.length)
    (hrefs : ∀ entry ∈ s.object grants, entry.2 < s.arrays.length)
    (roles : List String) (acc : Store × Nat) (collected : List String)
    (hacc : s.Extends acc.1) (hcollected : acc.1.array acc.2 = collected) :
    (roles.foldl
        (fun (acc : Store × Nat) group =>
          if OnStore.hasProp acc.1 grants group then
            OnStore.concat acc.1 acc.2 (OnStore.getProp acc.1 grants group)
          else acc)
        acc).1.array
      (roles.foldl
        (fun (acc : Store × Nat) group =>
          if OnStore.hasProp acc.1 grants group then
            OnStore.concat acc.1 acc.2 (OnStore.getProp acc.1 grants group)
          else acc)
        acc).2
    = roles.foldl
        (fun permissions group =>
          if hasProp (s.grants grants) group then
            permissions ++ getProp (s.grants grants) group
          else permissions)
        collected := by
  induction roles generalizing acc collected with
  | nil => exact hcollected
  | cons group rest ih =>
    simp only [List.foldl_cons]
    have hsame : acc.1.grants grants = s.grants grants :=
      grants_eq_of_extends hacc grants hgrants hrefs
    by_cases hg : OnStore.hasProp acc.1 grants group = true
    · have hg2 : hasProp (s.grants grants) group = true := by
        rw [← hsame, ← store_hasProp]
        exact hg
      rw [if_pos hg, if_pos hg2]
      apply ih
      · exact extends_trans hacc (extends_newArray _ _)
      · unfold OnStore.concat
        rw [array_newArray, hcollected, store_getProp acc.1 grants group hg, hsame]
    · have hg2 : ¬ hasProp (s.grants grants) group = true := by
        rw [← hsame, ← store_hasProp]
        exact hg
      rw [if_neg hg, if_neg hg2]
      exact ih acc collected hacc hcollected

/-- The array the reduction leaves on the store holds the effective pattern list of
the grants table and role list read from the store. -/
theorem store_permissions (s : Store) (grants roles : Nat)
    (hgrants : grants < s.objects.length)
    (hrefs : ∀ entry ∈ s.object grants, entry.2 < s.arrays.length) :
    (OnStore.permissions s grants roles).1.array (OnStore.permissions s grants roles).2
      = permissions (s.grants grants) (s.array roles) :=
  foldl_concat_array s grants hgrants hrefs (s.array roles) (s.newArray []) []
    (extends_newArray s []) (array_newArray s [])

/-- With a matcher that only reads the pattern array, `checkPermission` on the store
returns what `checkPermission` returns on the values read from the store. -/
theorem store_checkPermission {ε : Type} (any : Matcher ε) (s : Store) (grants roles : Nat)
    (permission : String) (hgrants : grants < s.objects.length)
    (hrefs : ∀ entry ∈ s.object grants, entry.2 < s.arrays.length) :
    (OnStore.checkPermission (onStore any) s (.three grants roles permission)).2
      = checkPermission any (.three (s.grants grants) (s.array roles) permission) := by
  show any permission
      ((OnStore.permissions s grants roles).1.array (OnStore.permissions s grants roles).2)
    = any permission (permissions (s.grants grants) (s.array roles))
  rw [store_permissions s grants roles hgrants hrefs]

theorem filter_congr_mem {ε α : Type} (f g : α → Except ε Bool) (xs : List α)
    (h : ∀ x ∈ xs, f x = g x) : filter f xs = filter g xs := by
  induction xs with
  | nil => rfl
  | cons x rest ih =>
    simp only [filter, h x (List.mem_cons_self _ _),
      ih (fun y hy => h y (List.mem_cons_of_mem _ hy))]

theorem store_filter {ε : Type} (f : Store → String → Except ε Bool) (s : Store)
    (xs : List String) :
    OnStore.filter (fun s1 x => (s1, f s1 x)) s xs = (s, filter (f s) xs) := by
  induction xs with
  | nil => rfl
  | cons x rest ih =>
    unfold OnStore.filter filter
    cases hx : f s x with
    | error e => rfl
    | ok keep =>
      dsimp only
      rw [ih]
      cases filter (f s) rest <;> rfl

/-- With a matcher that only reads the pattern array, `findRoles` on the store returns
the address of an array holding what `findRoles` returns on the values read from the
store, or raises the same error. -/
theorem store_findRoles {ε : Type} (any : Matcher ε) (s : Store) (grants : Nat)
    (permission : String) (hgrants : grants < s.objects.length)
    (hrefs : ∀ entry ∈ s.object grants, entry.2 < s.arrays.length) :
    (match OnStore.findRoles (onStore any) s grants permission with
      | (t, .ok kept) => Except.ok (t.array kept)
      | (_, .error e) => Except.error e)
      = findRoles any (.two (s.grants grants) permission) := by
  have hkeys : keys (s.grants grants) = (s.object grants).map Prod.fst := by
    simp [keys, Store.grants, List.map_map, Function.comp_def]
  have hext := extends_newArray s ((s.object grants).map Prod.fst)
  have hcallback : ∀ role ∈ (s.object grants).map Prod.fst,
      any permission
          ((s.newArray ((s.object grants).map Prod.fst)).1.array
            (OnStore.getProp (s.newArray ((s.object grants).map Prod.fst)).1 grants role))
        = any permission (getProp (s.grants grants) role) := by
    intro role hrole
    have hprop : OnStore.hasProp (s.newArray ((s.object grants).map Prod.fst)).1 grants role
        = true := by
      rw [store_hasProp, grants_eq_of_extends hext grants hgrants hrefs, hasProp_iff, hkeys]
      exact hrole
    rw [store_getProp _ grants role hprop, grants_eq_of_extends hext grants hgrants hrefs]
  have hrun : OnStore.filter
      (fun s1 role => onStore any s1 permission (OnStore.getProp s1 grants role))
      (s.newArray ((s.object grants).map Prod.fst)).1 ((s.object grants).map Prod.fst)
      = ((s.newArray ((s.object grants).map Prod.fst)).1,
          filter (fun role => any permission (getProp (s.grants grants) role))
            ((s.object grants).map Prod.fst)) := by
    rw [← filter_congr_mem _ _ _ hcallback]
    exact store_filter
      (fun s1 role => any permission (s1.array (OnStore.getProp s1 grants role))) _ _
  show _ = filter (fun role => any permission (getProp (s.grants grants) role))
    (keys (s.grants grants))
  unfold OnStore.findRoles
  rw [hrun, hkeys]
  cases filter (fun role => any permission (getProp (s.grants grants) role))
      ((s.object grants).map Prod.fst) with
  | error e => rfl
  | ok kept =>
    dsimp only
    rw [array_newArray]

end Permissionary
